import Mathlib

/-
Verification of the boss-fight game server (server.js) against its
natural-language specification.

The JavaScript source is shallowly embedded: process-wide mutable variables
become fields of an explicit `GameState` record, each mutating function
becomes a pure state transformer, and machine numbers become `Nat`/`Int`
(with the explicit clamping the source performs).  Fields of the source
state that are wall-clock handles or ledger addresses
(`bettingEndTime`, `fightEndTime`, `bettingRoundPDA`, `escrowPDA`,
`gameTimer`, connection flags) are not referenced by any verified claim
and are omitted from the record.
-/

/-- Game phases, from the `GAME_PHASES` table in server.js. -/
inductive GamePhase where
  | idle
  | betting
  | fighting
  | ended
deriving DecidableEq, Repr

/-- One entry of the `chronological` log:
`{username, message, timestamp, delta}` pushed by `handleChatMessage`. -/
structure HitEntry where
  username : String
  message : String
  timestamp : Nat
  delta : Int
deriving DecidableEq, Repr

/-- A mirror of a bet, as stored in the `onChainBets` map by the
`/api/bet-notification` endpoint (amount already converted to lamports). -/
structure BetInfo where
  username : String
  amount : Nat
  prediction : Option String
  timestamp : Nat
deriving DecidableEq, Repr

/-- Configuration read from the environment at boot: keyword lists,
`INITIAL_HP` and `FEE_PERCENTAGE`. -/
structure Config where
  triggerKeywords : List String
  healKeywords : List String
  initialHP : Nat
  feePercentage : Nat
deriving DecidableEq, Repr

/-- The constant `LAMPORTS_PER_SOL` from `@solana/web3.js`. -/
def LAMPORTS_PER_SOL : Nat := 1000000000

/-- The process-wide mutable game state of server.js, gathered into a
record.  `bossHP` is an `Int` because the source clamps it with
`Math.max(0, Math.min(INITIAL_HP, bossHP + delta))`. -/
structure GameState where
  gamePhase : GamePhase
  currentRoundId : Nat
  bossHP : Int
  userHits : List (String × Nat)
  chronological : List HitEntry
  lastHitter : Option String
  totalHits : Nat
  onChainBets : List (String × BetInfo)
  totalDeathBets : Nat
  totalSurvivalBets : Nat
deriving DecidableEq, Repr

/-- JavaScript `Map.get(k)` with a default: return the value at the first
matching key, or the default. -/
def mapGetD {α : Type} : List (String × α) → String → α → α
  | [], _, d => d
  | (k', v') :: rest, k, d => if k' = k then v' else mapGetD rest k d

/-- JavaScript `Map.set(k, v)`: replace the entry at an existing key in
place, or append a new entry. -/
def mapSet {α : Type} : List (String × α) → String → α → List (String × α)
  | [], k, v => [(k, v)]
  | (k', v') :: rest, k, v =>
    if k' = k then (k, v) :: rest else (k', v') :: mapSet rest k v

/-- JavaScript `message.toUpperCase()` modelled character-wise. -/
def jsUpper (s : String) : List Char := s.data.map Char.toUpper

/-- JavaScript `text.includes(k)`: `k` occurs as a contiguous substring of `text`. -/
def jsIncludes (text k : List Char) : Bool :=
  text.tails.any (fun t => k.isPrefixOf t)

/-- The test `KEYWORDS.some(k => k && text.includes(k.toUpperCase()))` from
`handleChatMessage` (the `k &&` guard skips empty keywords). -/
def hasKeywordMatch (keywords : List String) (text : List Char) : Bool :=
  keywords.any (fun k => !(k == "") && jsIncludes text (jsUpper k))

/-- The delta computation of `handleChatMessage` (server.js lines 934-958):
uppercase the message, test for trigger and heal keywords, and produce
exactly `-1`, `+1` or `0`. -/
def classify (cfg : Config) (message : String) : Int :=
  let text := jsUpper message
  let hasHitKeyword := hasKeywordMatch cfg.triggerKeywords text
  let hasHealKeyword := hasKeywordMatch cfg.healKeywords text
  if hasHitKeyword && !hasHealKeyword then -1
  else if hasHealKeyword && !hasHitKeyword then 1
  else 0

/-- The handler `handleChatMessage(username, message, timestamp)`: no-op outside the
fighting phase or when the delta is `0`; on damage, bump `totalHits`,
`userHits[username]` and `lastHitter`; in both damage and heal cases push
one `chronological` entry and clamp `bossHP` into `[0, INITIAL_HP]`. -/
def handleChatMessage (cfg : Config) (st : GameState)
    (username message : String) (timestamp : Nat) : GameState :=
  if st.gamePhase ≠ GamePhase.fighting then st
  else
    let delta := classify cfg message
    if delta = 0 then st
    else
      let st1 :=
        if delta < 0 then
          { st with
            totalHits := st.totalHits + 1
            userHits := mapSet st.userHits username (mapGetD st.userHits username 0 + 1)
            lastHitter := some username }
        else st
      let st2 := { st1 with
        chronological := st1.chronological ++ [HitEntry.mk username message timestamp delta] }
      { st2 with bossHP := max 0 (min (cfg.initialHP : Int) (st2.bossHP + delta)) }

/-- The function `resetGame()`: return every per-round field to its boot value. -/
def resetGame (cfg : Config) (st : GameState) : GameState :=
  { st with
    gamePhase := GamePhase.idle
    currentRoundId := 0
    bossHP := (cfg.initialHP : Int)
    userHits := []
    chronological := []
    lastHitter := none
    totalHits := 0
    onChainBets := []
    totalDeathBets := 0
    totalSurvivalBets := 0 }

/-- The `bossDefeated` computation at the top of `endFight(reason)`:
`reason === 'defeated' || bossHP === 0`. -/
def bossDefeatedFlag (reason : String) (st : GameState) : Bool :=
  reason == "defeated" || st.bossHP == 0

/-- The `/api/bet-notification` endpoint body: store/replace the wallet's
entry in `onChainBets`, then add the lamport amount to `totalDeathBets`
when the prediction is exactly `'death'` and to `totalSurvivalBets`
otherwise. -/
def betNotificationStep (st : GameState) (walletAddress username : String)
    (amountSol : Nat) (prediction : Option String) (ts : Nat) : GameState :=
  let amountLamports := amountSol * LAMPORTS_PER_SOL
  let st1 := { st with
    onChainBets := mapSet st.onChainBets walletAddress
      ⟨username, amountLamports, prediction, ts⟩ }
  if prediction = some "death" then
    { st1 with totalDeathBets := st1.totalDeathBets + amountLamports }
  else
    { st1 with totalSurvivalBets := st1.totalSurvivalBets + amountLamports }

/-- The external stimuli that mutate the game state.  RPC outcomes and
chain-loaded data appear as parameters of the respective operation. -/
inductive Op where
  | chat (username message : String) (timestamp : Nat)
  | adminReset
  | startBetting (now : Nat) (initOk : Bool)
  | startFighting (ok : Bool) (chainDeath chainSurvival : Nat)
      (chainBets : List (String × BetInfo)) (failToIdle : Bool)
  | fightTimeout (rpcOk : Bool)
  | betNote (wallet username : String) (amountSol : Nat)
      (prediction : Option String) (timestamp : Nat)
deriving Repr

/-- One step of the orchestrator: dispatch an `Op` exactly as the
corresponding server.js handler does.
`startBetting` mirrors `startBettingPhase` (guard on idle/ended,
`resetGame`, fresh round id, phase `betting` on success and `idle` on RPC
failure); `startFighting` mirrors `startFightingPhase` (guard on betting;
on success phase `fighting` plus `loadBettingData`, on exhausted retries
phase `idle`, otherwise unchanged); `fightTimeout` mirrors
`endFight('timeout')` (phase `ended` unless the RPC threw, in which case
the catch block leaves the state as it was). -/
def applyOp (cfg : Config) (st : GameState) (op : Op) : GameState :=
  match op with
  | Op.chat u m ts => handleChatMessage cfg st u m ts
  | Op.adminReset => resetGame cfg st
  | Op.startBetting now initOk =>
    if st.gamePhase = GamePhase.idle ∨ st.gamePhase = GamePhase.ended then
      let st1 := { resetGame cfg st with currentRoundId := now }
      if initOk then { st1 with gamePhase := GamePhase.betting }
      else { st1 with gamePhase := GamePhase.idle }
    else st
  | Op.startFighting ok chainDeath chainSurvival chainBets failToIdle =>
    if st.gamePhase ≠ GamePhase.betting then st
    else if ok then
      { st with
        gamePhase := GamePhase.fighting
        totalDeathBets := chainDeath
        totalSurvivalBets := chainSurvival
        onChainBets := chainBets }
    else if failToIdle then { st with gamePhase := GamePhase.idle }
    else st
  | Op.fightTimeout rpcOk =>
    if st.gamePhase = GamePhase.fighting ∧ rpcOk then
      { st with gamePhase := GamePhase.ended }
    else st
  | Op.betNote w u a p ts => betNotificationStep st w u a p ts

/-- The boot state of the process (module top level of server.js). -/
def initialState (cfg : Config) : GameState :=
  { gamePhase := GamePhase.idle
    currentRoundId := 0
    bossHP := (cfg.initialHP : Int)
    userHits := []
    chronological := []
    lastHitter := none
    totalHits := 0
    onChainBets := []
    totalDeathBets := 0
    totalSurvivalBets := 0 }

/-- Run a sequence of operations from boot. -/
def runGame (cfg : Config) (ops : List Op) : GameState :=
  ops.foldl (applyOp cfg) (initialState cfg)

/-- The leaderboard `getTop(n)`: map the `userHits` entries, sort by hits descending
(the comparator `(a, b) => b.hits - a.hits`), and `slice(0, n)`. -/
def getTop (userHits : List (String × Nat)) (n : Nat) : List (String × Nat) :=
  (userHits.mergeSort (fun a b => decide (b.2 ≤ a.2))).take n

/-- A bet account as fetched from the chain by `processPayouts`. -/
structure BetAccount where
  bettor : String
  username : String
  amount : Nat
  prediction : String
deriving DecidableEq, Repr

/-- The settlement actions `processPayouts` issues against the ledger. -/
inductive PayoutAction where
  | claimPayout (bettor : String) (betAmount prizeShare totalPayout : Nat)
  | claimFees
deriving DecidableEq, Repr

/-- The settlement run of `processPayouts` (server.js lines 730-849),
reduced to the sequence of ledger actions it issues: with no winner pool
it only claims fees; otherwise every winning bet gets a `claimPayout`
with the floor-rounded integer formula of lines 791-794, losers get
nothing, and one `claimFees` closes the run. -/
def processPayouts (bossDefeated : Bool)
    (totalDeathBetsLamports totalSurvivalBetsLamports feePercentage : Nat)
    (betAccounts : List BetAccount) : List PayoutAction :=
  let winningPrediction := if bossDefeated then "death" else "survival"
  let totalWinnerBets :=
    if bossDefeated then totalDeathBetsLamports else totalSurvivalBetsLamports
  let totalLoserBets :=
    if bossDefeated then totalSurvivalBetsLamports else totalDeathBetsLamports
  if totalWinnerBets = 0 then [PayoutAction.claimFees]
  else
    (betAccounts.filterMap fun b =>
      if b.prediction = winningPrediction then
        let feeAmount := totalLoserBets * feePercentage / 100
        let prizePool := totalLoserBets - feeAmount
        let prizeShare := prizePool * b.amount / totalWinnerBets
        let totalPayout := b.amount + prizeShare
        some (PayoutAction.claimPayout b.bettor b.amount prizeShare totalPayout)
      else none) ++ [PayoutAction.claimFees]

/-- Result of one `startFightPhase` RPC attempt, as classified by the
catch block of `startFightingPhase`. -/
inductive RpcResult where
  | ok
  | bettingStillActive
  | otherError
deriving DecidableEq, Repr

/-- Where `startFightingPhase` leaves the game phase. -/
inductive FightOutcome where
  | fighting
  | idleAfterRetries
  | bettingStuck
deriving DecidableEq, Repr

/-- The transition `startFightingPhase(retryCount)` (server.js lines 573-628), with the
RPC modelled as an oracle indexed by attempt number.  Returns the final
outcome together with the list of scheduled retry delays (one `2000` ms
entry per `setTimeout`): success enters fighting; a `BettingStillActive`
error with `retryCount < 5` schedules one retry after 2000 ms; any error
at `retryCount ≥ 5` publishes the idle phase-change and sets idle; any
other error leaves the phase as it was (betting). -/
def startFightingPhase (oracle : Nat → RpcResult) (retryCount : Nat) :
    FightOutcome × List Nat :=
  if oracle retryCount = RpcResult.ok then (FightOutcome.fighting, [])
  else if h : oracle retryCount = RpcResult.bettingStillActive ∧ retryCount < 5 then
    let r := startFightingPhase oracle (retryCount + 1)
    (r.1, 2000 :: r.2)
  else if 5 ≤ retryCount then (FightOutcome.idleAfterRetries, [])
  else (FightOutcome.bettingStuck, [])
termination_by 6 - retryCount
decreasing_by omega

/-- Sum of the values of a hits map. -/
def sumValues (m : List (String × Nat)) : Nat := (m.map Prod.snd).sum

/-- Number of damage entries (`delta = -1`) in the chronological log. -/
def damageCount (l : List HitEntry) : Nat :=
  l.countP (fun e => e.delta == -1)

/-- Some keyword `k` is a case-insensitive substring of `message`: uppercasing both,
some decomposition exhibits `k` contiguously inside the message.  This is
the spec's wording of the keyword test, to be compared with the
implementation's `jsIncludes`. -/
def SpecHasKeyword (keywords : List String) (message : String) : Prop :=
  ∃ k ∈ keywords, ∃ pre post, jsUpper message = pre ++ jsUpper k ++ post

/-- The configuration of the spec's end-to-end scenarios:
`TRIGGER_KEYWORDS="HIT"`, `HEAL_KEYWORDS="HEAL"`, `INITIAL_HP=3`. -/
def cfgHIT : Config := ⟨["HIT"], ["HEAL"], 3, 5⟩

/-- A sample fighting-phase state: admin starts betting, the fight phase
begins (boss at full HP `3`). -/
def fightingState3 : GameState :=
  runGame cfgHIT [Op.startBetting 100 true, Op.startFighting true 0 0 [] false]

/-- The state `fightingState3` after two hits: boss at 1 HP, still
fighting. -/
def oneHPState : GameState :=
  runGame cfgHIT [Op.startBetting 100 true, Op.startFighting true 0 0 [] false,
    Op.chat "alice" "HIT" 1, Op.chat "bob" "HIT" 2]

/-- The state `fightingState3` after one hit: boss at 2 HP, strictly
between the bounds. -/
def interiorState : GameState :=
  handleChatMessage cfgHIT fightingState3 "a" "HIT" 1

/-- The HP bound invariant of the spec. -/
def HPInv (cfg : Config) (st : GameState) : Prop :=
  0 ≤ st.bossHP ∧ st.bossHP ≤ (cfg.initialHP : Int)

/-- The accounting invariant: `totalHits` equals the sum of `userHits`
values and the number of `delta = -1` entries of `chronological`. -/
def HitsInv (st : GameState) : Prop :=
  st.totalHits = sumValues st.userHits
  ∧ st.totalHits = damageCount st.chronological

example : jsIncludes (jsUpper "say hIt now") (jsUpper "HIT") = true := by decide
example : jsIncludes (jsUpper "nothing") (jsUpper "HIT") = false := by decide
example : classify cfgHIT "a hit b" = -1 := by decide
example : classify cfgHIT "HIT and HEAL" = 0 := by decide
example : classify cfgHIT "pls heal" = 1 := by decide

/-- The check `jsIncludes` decides contiguous-substring occurrence. -/
theorem jsIncludes_iff (text k : List Char) :
    jsIncludes text k = true ↔ ∃ pre post, text = pre ++ k ++ post := by
  unfold jsIncludes
  rw [List.any_eq_true]
  constructor
  · rintro ⟨t, ht, hpf⟩
    rw [List.mem_tails] at ht
    obtain ⟨pre, hpre⟩ := ht
    obtain ⟨post, hpost⟩ := ( List.isPrefixOf_iff_prefix).mp hpf
    refine ⟨pre, post, ?_⟩
    rw [← hpre, ← hpost, List.append_assoc]
  · rintro ⟨pre, post, rfl⟩
    refine ⟨k ++ post, ?_, ?_⟩
    · rw [List.mem_tails]
      exact ⟨pre, by simp⟩
    · exact ( List.isPrefixOf_iff_prefix).mpr ⟨post, rfl⟩

/-- With no empty keyword configured (the source filters them out with
`.filter(Boolean)` and guards with `k &&`), the implementation's keyword
test agrees with the spec's case-insensitive-substring wording. -/
theorem hasKeywordMatch_iff (kws : List String) (msg : String)
    (hne : "" ∉ kws) :
    hasKeywordMatch kws (jsUpper msg) = true ↔ SpecHasKeyword kws msg := by
  unfold hasKeywordMatch SpecHasKeyword
  rw [List.any_eq_true]
  constructor
  · rintro ⟨k, hk, hcond⟩
    rw [Bool.and_eq_true] at hcond
    exact ⟨k, hk, (jsIncludes_iff _ _).mp hcond.2⟩
  · rintro ⟨k, hk, pre, post, hdecomp⟩
    refine ⟨k, hk, ?_⟩
    rw [Bool.and_eq_true]
    refine ⟨?_, (jsIncludes_iff _ _).mpr ⟨pre, post, hdecomp⟩⟩
    have hkne : k ≠ "" := fun h => hne (h ▸ hk)
    simp [hkne]

/-- The delta `classify` only ever produces `-1`, `0` or `1`. -/
theorem classify_cases (cfg : Config) (m : String) :
    classify cfg m = -1 ∨ classify cfg m = 0 ∨ classify cfg m = 1 := by
  unfold classify
  cases hb1 : hasKeywordMatch cfg.triggerKeywords (jsUpper m) <;>
    cases hb2 : hasKeywordMatch cfg.healKeywords (jsUpper m) <;>
    simp [hb1, hb2]

/-- A message classified `0` leaves the state untouched, as does any
message outside the fighting phase. -/
theorem handleChat_eq_self (cfg : Config) (st : GameState)
    (u m : String) (ts : Nat)
    (h : st.gamePhase ≠ GamePhase.fighting ∨ classify cfg m = 0) :
    handleChatMessage cfg st u m ts = st := by
  unfold handleChatMessage
  rcases h with h | h
  · simp [h]
  · simp [h]

/-- The exact state produced by a damage message during fighting. -/
theorem handleChat_eq_damage (cfg : Config) (st : GameState)
    (u m : String) (ts : Nat)
    (hph : st.gamePhase = GamePhase.fighting) (hm : classify cfg m = -1) :
    handleChatMessage cfg st u m ts =
      { st with
        totalHits := st.totalHits + 1
        userHits := mapSet st.userHits u (mapGetD st.userHits u 0 + 1)
        lastHitter := some u
        chronological := st.chronological ++ [HitEntry.mk u m ts (-1)]
        bossHP := max 0 (min (cfg.initialHP : Int) (st.bossHP + (-1))) } := by
  unfold handleChatMessage
  simp [hph, hm]

/-- The exact state produced by a heal message during fighting. -/
theorem handleChat_eq_heal (cfg : Config) (st : GameState)
    (u m : String) (ts : Nat)
    (hph : st.gamePhase = GamePhase.fighting) (hm : classify cfg m = 1) :
    handleChatMessage cfg st u m ts =
      { st with
        chronological := st.chronological ++ [HitEntry.mk u m ts 1]
        bossHP := max 0 (min (cfg.initialHP : Int) (st.bossHP + 1)) } := by
  unfold handleChatMessage
  simp [hph, hm]

/-- C2.  With configured (hence non-empty) keyword sets: a message
containing a trigger keyword as case-insensitive substring and no heal
keyword is classified as exactly one point of damage (`-1`); the dual
case is exactly one point of heal (`+1`); when both or neither kind of
keyword occurs the delta is `0` and `handleChatMessage` leaves the game
state unchanged.  Multiple keyword occurrences still give magnitude 1,
since the classification is by mere presence. -/
theorem C2_keyword_interpreter (cfg : Config) (msg : String)
    (htrig : "" ∉ cfg.triggerKeywords) (hheal : "" ∉ cfg.healKeywords) :
    (classify cfg msg = -1 ↔
      (SpecHasKeyword cfg.triggerKeywords msg ∧
       ¬ SpecHasKeyword cfg.healKeywords msg))
  ∧ (classify cfg msg = 1 ↔
      (SpecHasKeyword cfg.healKeywords msg ∧
       ¬ SpecHasKeyword cfg.triggerKeywords msg))
  ∧ (((SpecHasKeyword cfg.triggerKeywords msg ∧
       SpecHasKeyword cfg.healKeywords msg) ∨
      (¬ SpecHasKeyword cfg.triggerKeywords msg ∧
       ¬ SpecHasKeyword cfg.healKeywords msg)) →
      classify cfg msg = 0 ∧
      ∀ st u ts, handleChatMessage cfg st u msg ts = st) := by
  have hneg : classify cfg msg = -1 ↔
      (SpecHasKeyword cfg.triggerKeywords msg ∧
       ¬ SpecHasKeyword cfg.healKeywords msg) := by
    rw [← hasKeywordMatch_iff cfg.triggerKeywords msg htrig,
        ← hasKeywordMatch_iff cfg.healKeywords msg hheal]
    unfold classify
    cases hb1 : hasKeywordMatch cfg.triggerKeywords (jsUpper msg) <;>
      cases hb2 : hasKeywordMatch cfg.healKeywords (jsUpper msg) <;>
      simp [hb1, hb2]
  have hpos : classify cfg msg = 1 ↔
      (SpecHasKeyword cfg.healKeywords msg ∧
       ¬ SpecHasKeyword cfg.triggerKeywords msg) := by
    rw [← hasKeywordMatch_iff cfg.triggerKeywords msg htrig,
        ← hasKeywordMatch_iff cfg.healKeywords msg hheal]
    unfold classify
    cases hb1 : hasKeywordMatch cfg.triggerKeywords (jsUpper msg) <;>
      cases hb2 : hasKeywordMatch cfg.healKeywords (jsUpper msg) <;>
      simp [hb1, hb2]
  refine ⟨hneg, hpos, ?_⟩
  intro hcase
  have hzero : classify cfg msg = 0 := by
    rcases classify_cases cfg msg with h | h | h
    · rcases hcase with ⟨_, hb⟩ | ⟨ha, _⟩
      · exact absurd hb (hneg.mp h).2
      · exact absurd (hneg.mp h).1 ha
    · exact h
    · rcases hcase with ⟨ha, _⟩ | ⟨_, hb⟩
      · exact absurd ha (hpos.mp h).2
      · exact absurd (hpos.mp h).1 hb
  exact ⟨hzero, fun st u ts =>
    handleChat_eq_self cfg st u msg ts (Or.inr hzero)⟩

/-- Witness for C2 at the scenario configuration. -/
theorem C2_keyword_interpreter_witness :
    ("" ∉ cfgHIT.triggerKeywords) ∧ ("" ∉ cfgHIT.healKeywords) ∧
    (SpecHasKeyword cfgHIT.triggerKeywords "go HIT now" ∧
     ¬ SpecHasKeyword cfgHIT.healKeywords "go HIT now") :=
  ⟨by decide, by decide,
    (C2_keyword_interpreter cfgHIT "go HIT now" (by decide) (by decide)).1.mp
      (by decide)⟩

/-- Chat handling never changes the game phase. -/
theorem handleChat_gamePhase (cfg : Config) (st : GameState)
    (u m : String) (ts : Nat) :
    (handleChatMessage cfg st u m ts).gamePhase = st.gamePhase := by
  by_cases hph : st.gamePhase = GamePhase.fighting
  · rcases classify_cases cfg m with h | h | h
    · rw [handleChat_eq_damage cfg st u m ts hph h]
    · rw [handleChat_eq_self cfg st u m ts (Or.inr h)]
    · rw [handleChat_eq_heal cfg st u m ts hph h]
  · rw [handleChat_eq_self cfg st u m ts (Or.inl hph)]

example : fightingState3.bossHP = 3 ∧
    fightingState3.gamePhase = GamePhase.fighting := by decide
example : oneHPState.bossHP = 1 := by decide
example : interiorState.bossHP = 2 := by decide

/-- C1 counterexample.  In a reachable fighting state with `bossHP = 1`,
the chat write that brings `bossHP` to `0` leaves the phase at
`fighting` (no fight-end flow starts on that write), and a subsequent
damage message is still accepted into `chronological`. -/
theorem C1_counterexample :
    oneHPState.gamePhase = GamePhase.fighting
  ∧ oneHPState.bossHP = 1
  ∧ (handleChatMessage cfgHIT oneHPState "carol" "HIT" 3).bossHP = 0
  ∧ (handleChatMessage cfgHIT oneHPState "carol" "HIT" 3).gamePhase
      = GamePhase.fighting
  ∧ (handleChatMessage cfgHIT
        (handleChatMessage cfgHIT oneHPState "carol" "HIT" 3)
        "dave" "HIT" 4).chronological.length
      = (handleChatMessage cfgHIT oneHPState "carol" "HIT" 3).chronological.length
          + 1 := by decide

/-- C1 amended.  A chat write never begins the fight-end flow, even when
it brings `bossHP` to `0`: the phase stays `fighting`, later damage
messages are still appended to `chronological`, and the boss is only
recorded as defeated when the timer-driven `endFight('timeout')`
computes its `bossDefeated` flag from `bossHP == 0`. -/
theorem C1_no_early_fight_end (cfg : Config) (st : GameState)
    (u m : String) (ts : Nat)
    (hph : st.gamePhase = GamePhase.fighting) :
    (handleChatMessage cfg st u m ts).gamePhase = GamePhase.fighting
  ∧ (∀ u2 m2 ts2, classify cfg m2 = -1 →
      (handleChatMessage cfg (handleChatMessage cfg st u m ts) u2 m2 ts2).chronological
        = (handleChatMessage cfg st u m ts).chronological
            ++ [HitEntry.mk u2 m2 ts2 (-1)])
  ∧ ((handleChatMessage cfg st u m ts).bossHP = 0 →
      bossDefeatedFlag "timeout" (handleChatMessage cfg st u m ts) = true) := by
  have hph' : (handleChatMessage cfg st u m ts).gamePhase = GamePhase.fighting := by
    rw [handleChat_gamePhase]
    exact hph
  refine ⟨hph', ?_, ?_⟩
  · intro u2 m2 ts2 hm2
    rw [handleChat_eq_damage cfg _ u2 m2 ts2 hph' hm2]
  · intro h0
    unfold bossDefeatedFlag
    rw [h0]
    simp

/-- Witness for the amended C1. -/
theorem C1_no_early_fight_end_witness :
    oneHPState.gamePhase = GamePhase.fighting ∧
    (handleChatMessage cfgHIT oneHPState "carol" "HIT" 3).gamePhase
      = GamePhase.fighting :=
  ⟨by decide,
   (C1_no_early_fight_end cfgHIT oneHPState "carol" "HIT" 3 (by decide)).1⟩

/-- C7.  A heal during fighting appends exactly one `delta = +1` entry to
`chronological` and sets `bossHP` to `min(maxHP, bossHP + 1)` (the lower
clamp is inert because `bossHP` was nonnegative); every other field of
the state is untouched. -/
theorem C7_heal_frame (cfg : Config) (st : GameState)
    (u m : String) (ts : Nat)
    (hph : st.gamePhase = GamePhase.fighting) (hhp : 0 ≤ st.bossHP)
    (hm : classify cfg m = 1) :
    (handleChatMessage cfg st u m ts).chronological
        = st.chronological ++ [HitEntry.mk u m ts 1]
  ∧ (handleChatMessage cfg st u m ts).bossHP
        = min (cfg.initialHP : Int) (st.bossHP + 1)
  ∧ (handleChatMessage cfg st u m ts).userHits = st.userHits
  ∧ (handleChatMessage cfg st u m ts).lastHitter = st.lastHitter
  ∧ (handleChatMessage cfg st u m ts).totalHits = st.totalHits
  ∧ (handleChatMessage cfg st u m ts).gamePhase = st.gamePhase
  ∧ (handleChatMessage cfg st u m ts).currentRoundId = st.currentRoundId
  ∧ (handleChatMessage cfg st u m ts).onChainBets = st.onChainBets
  ∧ (handleChatMessage cfg st u m ts).totalDeathBets = st.totalDeathBets
  ∧ (handleChatMessage cfg st u m ts).totalSurvivalBets = st.totalSurvivalBets := by
  rw [handleChat_eq_heal cfg st u m ts hph hm]
  have hN : (0 : Int) ≤ (cfg.initialHP : Int) := Int.natCast_nonneg _
  refine ⟨rfl, ?_, rfl, rfl, rfl, rfl, rfl, rfl, rfl, rfl⟩
  show max 0 (min (cfg.initialHP : Int) (st.bossHP + 1))
      = min (cfg.initialHP : Int) (st.bossHP + 1)
  omega

/-- Witness for C7: the spec's heal-edge scenario shape. -/
theorem C7_heal_frame_witness :
    (handleChatMessage cfgHIT fightingState3 "eve" "HEAL" 7).userHits
        = fightingState3.userHits
  ∧ (handleChatMessage cfgHIT fightingState3 "eve" "HEAL" 7).lastHitter
        = fightingState3.lastHitter
  ∧ (handleChatMessage cfgHIT fightingState3 "eve" "HEAL" 7).totalHits
        = fightingState3.totalHits := by
  have h := C7_heal_frame cfgHIT fightingState3 "eve" "HEAL" 7
    (by decide) (by decide) (by decide)
  exact ⟨h.2.2.1, h.2.2.2.1, h.2.2.2.2.1⟩

/-- C8 counterexample.  At a reachable state with `bossHP = 2` strictly
inside `(0, 3)`, damage-then-heal does not return the state (the log has
grown), refuting the claimed equivalence; and at `bossHP = maxHP` the
resulting state differs from the original in `chronological` even though
`bossHP` is fully restored, so the clamp is not the only difference
there either. -/
theorem C8_counterexample :
    ((0 : Int) < interiorState.bossHP
      ∧ interiorState.bossHP < (cfgHIT.initialHP : Int)
      ∧ handleChatMessage cfgHIT
          (handleChatMessage cfgHIT interiorState "alice" "HIT" 2)
          "bob" "HEAL" 3 ≠ interiorState)
  ∧ (fightingState3.bossHP = (cfgHIT.initialHP : Int)
      ∧ (handleChatMessage cfgHIT
          (handleChatMessage cfgHIT fightingState3 "alice" "HIT" 2)
          "bob" "HEAL" 3).bossHP = fightingState3.bossHP
      ∧ (handleChatMessage cfgHIT
          (handleChatMessage cfgHIT fightingState3 "alice" "HIT" 2)
          "bob" "HEAL" 3).chronological ≠ fightingState3.chronological) := by
  decide

/-- C8 amended.  For a fighting state within the HP bounds, damage
followed by heal restores `bossHP` exactly when `bossHP > 0` (or
degenerately `maxHP = 0`); when `bossHP = 0` the damage clamp makes the
pair end at `min(maxHP, 1)`.  The full state is never restored: the pair
always appends its two entries to `chronological`. -/
theorem C8_damage_heal_roundtrip (cfg : Config) (st : GameState)
    (u1 m1 u2 m2 : String) (t1 t2 : Nat)
    (hph : st.gamePhase = GamePhase.fighting)
    (hlo : 0 ≤ st.bossHP) (hhi : st.bossHP ≤ (cfg.initialHP : Int))
    (hm1 : classify cfg m1 = -1) (hm2 : classify cfg m2 = 1) :
    ((handleChatMessage cfg (handleChatMessage cfg st u1 m1 t1) u2 m2 t2).bossHP
        = st.bossHP ↔ (0 < st.bossHP ∨ cfg.initialHP = 0))
  ∧ (handleChatMessage cfg (handleChatMessage cfg st u1 m1 t1) u2 m2 t2).chronological
        = st.chronological ++ [HitEntry.mk u1 m1 t1 (-1), HitEntry.mk u2 m2 t2 1]
  ∧ handleChatMessage cfg (handleChatMessage cfg st u1 m1 t1) u2 m2 t2 ≠ st
  ∧ (st.bossHP = 0 →
      (handleChatMessage cfg (handleChatMessage cfg st u1 m1 t1) u2 m2 t2).bossHP
        = min (cfg.initialHP : Int) 1) := by
  have hd := handleChat_eq_damage cfg st u1 m1 t1 hph hm1
  have hph1 : (handleChatMessage cfg st u1 m1 t1).gamePhase = GamePhase.fighting := by
    rw [handleChat_gamePhase]
    exact hph
  have hh := handleChat_eq_heal cfg (handleChatMessage cfg st u1 m1 t1)
    u2 m2 t2 hph1 hm2
  rw [hd] at hh ⊢
  rw [hh]
  have hN : (0 : Int) ≤ (cfg.initialHP : Int) := Int.natCast_nonneg _
  have hcast : cfg.initialHP = 0 ↔ (cfg.initialHP : Int) = 0 := by
    omega
  refine ⟨?_, ?_, ?_, ?_⟩
  · show max 0 (min (cfg.initialHP : Int)
        (max 0 (min (cfg.initialHP : Int) (st.bossHP + (-1))) + 1)) = st.bossHP
      ↔ (0 < st.bossHP ∨ cfg.initialHP = 0)
    rw [hcast]
    omega
  · show (st.chronological ++ [HitEntry.mk u1 m1 t1 (-1)])
        ++ [HitEntry.mk u2 m2 t2 1]
      = st.chronological ++ [HitEntry.mk u1 m1 t1 (-1), HitEntry.mk u2 m2 t2 1]
    rw [List.append_assoc]
    rfl
  · intro heq
    have hlen := congrArg (fun s => s.chronological.length) heq
    simp [List.length_append] at hlen
  · intro h0
    show max 0 (min (cfg.initialHP : Int)
        (max 0 (min (cfg.initialHP : Int) (st.bossHP + (-1))) + 1))
      = min (cfg.initialHP : Int) 1
    rw [h0]
    omega

/-- Witness for the amended C8. -/
theorem C8_damage_heal_roundtrip_witness :
    (handleChatMessage cfgHIT (handleChatMessage cfgHIT interiorState "x" "HIT" 5)
      "y" "HEAL" 6).bossHP = interiorState.bossHP := by
  have h := C8_damage_heal_roundtrip cfgHIT interiorState "x" "HIT" "y" "HEAL" 5 6
    (by decide) (by decide) (by decide) (by decide) (by decide)
  exact h.1.mpr (Or.inl (by decide))

/-- Chat handling keeps `bossHP` within bounds (the clamp). -/
theorem hpInv_handleChat (cfg : Config) (st : GameState)
    (u m : String) (ts : Nat) (h : HPInv cfg st) :
    HPInv cfg (handleChatMessage cfg st u m ts) := by
  have hN : (0 : Int) ≤ (cfg.initialHP : Int) := Int.natCast_nonneg _
  by_cases hph : st.gamePhase = GamePhase.fighting
  · rcases classify_cases cfg m with hc | hc | hc
    · rw [handleChat_eq_damage cfg st u m ts hph hc]
      constructor
      · show 0 ≤ max 0 (min (cfg.initialHP : Int) (st.bossHP + (-1)))
        omega
      · show max 0 (min (cfg.initialHP : Int) (st.bossHP + (-1)))
            ≤ (cfg.initialHP : Int)
        omega
    · rw [handleChat_eq_self cfg st u m ts (Or.inr hc)]
      exact h
    · rw [handleChat_eq_heal cfg st u m ts hph hc]
      constructor
      · show 0 ≤ max 0 (min (cfg.initialHP : Int) (st.bossHP + 1))
        omega
      · show max 0 (min (cfg.initialHP : Int) (st.bossHP + 1))
            ≤ (cfg.initialHP : Int)
        omega
  · rw [handleChat_eq_self cfg st u m ts (Or.inl hph)]
    exact h

/-- Every single operation keeps `bossHP` within bounds. -/
theorem hpInv_applyOp (cfg : Config) (st : GameState) (op : Op)
    (h : HPInv cfg st) : HPInv cfg (applyOp cfg st op) := by
  have hN : (0 : Int) ≤ (cfg.initialHP : Int) := Int.natCast_nonneg _
  cases op with
  | chat u m ts => exact hpInv_handleChat cfg st u m ts h
  | adminReset => exact ⟨hN, le_refl _⟩
  | startBetting now initOk =>
    simp only [applyOp]
    split
    · split
      · exact ⟨hN, le_refl _⟩
      · exact ⟨hN, le_refl _⟩
    · exact h
  | startFighting ok cd cs bets failToIdle =>
    simp only [applyOp]
    split
    · exact h
    · split
      · exact h
      · split
        · exact h
        · exact h
  | fightTimeout rpcOk =>
    simp only [applyOp]
    split
    · exact h
    · exact h
  | betNote w u a p ts =>
    simp only [applyOp, betNotificationStep]
    split
    · exact h
    · exact h

/-- The invariant propagates through any run. -/
theorem hpInv_foldl (cfg : Config) (ops : List Op) (st : GameState)
    (h : HPInv cfg st) : HPInv cfg (ops.foldl (applyOp cfg) st) := by
  induction ops generalizing st with
  | nil => exact h
  | cons op rest ih => exact ih (applyOp cfg st op) (hpInv_applyOp cfg st op h)

/-- C3.  In every reachable state — any sequence of chat messages, admin
resets, phase transitions and bet notifications applied from boot —
`0 ≤ bossHP ≤ maxHP` (with `maxHP = INITIAL_HP`). -/
theorem C3_bossHP_bounds (cfg : Config) (ops : List Op) :
    0 ≤ (runGame cfg ops).bossHP
  ∧ (runGame cfg ops).bossHP ≤ (cfg.initialHP : Int) :=
  hpInv_foldl cfg ops (initialState cfg)
    ⟨Int.natCast_nonneg _, le_refl _⟩

/-- Setting a key to its looked-up value plus one raises the value sum by
exactly one. -/
theorem sumValues_mapSet (m : List (String × Nat)) (k : String) :
    sumValues (mapSet m k (mapGetD m k 0 + 1)) = sumValues m + 1 := by
  induction m with
  | nil => simp [mapSet, mapGetD, sumValues]
  | cons hd tl ih =>
    obtain ⟨k', v'⟩ := hd
    by_cases h : k' = k
    · subst h
      simp [mapSet, mapGetD, sumValues]
      omega
    · simp [mapSet, mapGetD, h, sumValues] at ih ⊢
      omega

/-- Appending one entry changes the damage count by one exactly when the
entry's delta is `-1`. -/
theorem damageCount_append (l : List HitEntry) (e : HitEntry) :
    damageCount (l ++ [e]) =
      damageCount l + (if e.delta == -1 then 1 else 0) := by
  simp [damageCount, List.countP_append, List.countP_cons]

/-- Chat handling preserves the accounting invariant. -/
theorem hitsInv_handleChat (cfg : Config) (st : GameState)
    (u m : String) (ts : Nat) (h : HitsInv st) :
    HitsInv (handleChatMessage cfg st u m ts) := by
  obtain ⟨h1, h2⟩ := h
  by_cases hph : st.gamePhase = GamePhase.fighting
  · rcases classify_cases cfg m with hc | hc | hc
    · rw [handleChat_eq_damage cfg st u m ts hph hc]
      constructor
      · show st.totalHits + 1
            = sumValues (mapSet st.userHits u (mapGetD st.userHits u 0 + 1))
        rw [sumValues_mapSet]
        omega
      · show st.totalHits + 1
            = damageCount (st.chronological ++ [HitEntry.mk u m ts (-1)])
        rw [damageCount_append]
        simp only [HitEntry.mk.injEq]
        norm_num
        exact h2
    · rw [handleChat_eq_self cfg st u m ts (Or.inr hc)]
      exact ⟨h1, h2⟩
    · rw [handleChat_eq_heal cfg st u m ts hph hc]
      constructor
      · exact h1
      · show st.totalHits
            = damageCount (st.chronological ++ [HitEntry.mk u m ts 1])
        rw [damageCount_append]
        norm_num
        exact h2
  · rw [handleChat_eq_self cfg st u m ts (Or.inl hph)]
    exact ⟨h1, h2⟩

/-- Every single operation preserves the accounting invariant. -/
theorem hitsInv_applyOp (cfg : Config) (st : GameState) (op : Op)
    (h : HitsInv st) : HitsInv (applyOp cfg st op) := by
  cases op with
  | chat u m ts => exact hitsInv_handleChat cfg st u m ts h
  | adminReset => exact ⟨rfl, rfl⟩
  | startBetting now initOk =>
    simp only [applyOp]
    split
    · split
      · exact ⟨rfl, rfl⟩
      · exact ⟨rfl, rfl⟩
    · exact h
  | startFighting ok cd cs bets failToIdle =>
    simp only [applyOp]
    split
    · exact h
    · split
      · exact h
      · split
        · exact h
        · exact h
  | fightTimeout rpcOk =>
    simp only [applyOp]
    split
    · exact h
    · exact h
  | betNote w u a p ts =>
    simp only [applyOp, betNotificationStep]
    split
    · exact h
    · exact h

/-- The accounting invariant propagates through any run. -/
theorem hitsInv_foldl (cfg : Config) (ops : List Op) (st : GameState)
    (h : HitsInv st) : HitsInv (ops.foldl (applyOp cfg) st) := by
  induction ops generalizing st with
  | nil => exact h
  | cons op rest ih => exact ih (applyOp cfg st op) (hitsInv_applyOp cfg st op h)

/-- C4.  In every reachable state `totalHits = Σ userHits` and
`totalHits` counts the `delta = -1` entries of `chronological`; moreover
every single operation (damage, heal, reset, phase change, bet
notification) preserves this equality. -/
theorem C4_totalHits_consistency (cfg : Config) (ops : List Op) :
    ((runGame cfg ops).totalHits = sumValues (runGame cfg ops).userHits
      ∧ (runGame cfg ops).totalHits = damageCount (runGame cfg ops).chronological)
  ∧ (∀ st op, (st.totalHits = sumValues st.userHits
        ∧ st.totalHits = damageCount st.chronological) →
      ((applyOp cfg st op).totalHits = sumValues (applyOp cfg st op).userHits
        ∧ (applyOp cfg st op).totalHits
            = damageCount (applyOp cfg st op).chronological)) :=
  ⟨hitsInv_foldl cfg ops (initialState cfg) ⟨rfl, rfl⟩,
   fun st op h => hitsInv_applyOp cfg st op h⟩

/-- Witness for C4: the invariant after a concrete damage step. -/
theorem C4_totalHits_consistency_witness :
    ((applyOp cfgHIT fightingState3 (Op.chat "alice" "HIT" 1)).totalHits
        = sumValues (applyOp cfgHIT fightingState3 (Op.chat "alice" "HIT" 1)).userHits
      ∧ (applyOp cfgHIT fightingState3 (Op.chat "alice" "HIT" 1)).totalHits
          = damageCount (applyOp cfgHIT fightingState3 (Op.chat "alice" "HIT" 1)).chronological) :=
  (C4_totalHits_consistency cfgHIT []).2 fightingState3
    (Op.chat "alice" "HIT" 1) (by decide)

/-- Setting the same key twice keeps only the second value. -/
theorem mapSet_mapSet {α : Type} (m : List (String × α)) (k : String)
    (v v' : α) : mapSet (mapSet m k v) k v' = mapSet m k v' := by
  induction m with
  | nil => simp [mapSet]
  | cons hd tl ih =>
    obtain ⟨k0, v0⟩ := hd
    by_cases h : k0 = k
    · subst h
      simp [mapSet]
    · simp [mapSet, h, ih]

/-- C9.  A bet notification adds the lamport-converted amount to
`totalDeathBets` exactly when the prediction is the string `'death'`,
and to `totalSurvivalBets` in every other case (including a missing
prediction); the wallet's entry in `onChainBets` is stored, and a
repeated notification for the same wallet replaces that entry while
adding its amount to the totals again. -/
theorem C9_bet_notification (st : GameState) (w u : String) (a : Nat)
    (p : Option String) (ts : Nat) :
    ((p = some "death" →
        (betNotificationStep st w u a p ts).totalDeathBets
            = st.totalDeathBets + a * LAMPORTS_PER_SOL
          ∧ (betNotificationStep st w u a p ts).totalSurvivalBets
            = st.totalSurvivalBets)
      ∧ (p ≠ some "death" →
        (betNotificationStep st w u a p ts).totalSurvivalBets
            = st.totalSurvivalBets + a * LAMPORTS_PER_SOL
          ∧ (betNotificationStep st w u a p ts).totalDeathBets
            = st.totalDeathBets))
  ∧ (betNotificationStep st w u a p ts).onChainBets
      = mapSet st.onChainBets w ⟨u, a * LAMPORTS_PER_SOL, p, ts⟩
  ∧ (∀ u2 a2 p2 ts2,
      (betNotificationStep (betNotificationStep st w u a p ts) w u2 a2 p2 ts2).onChainBets
        = mapSet st.onChainBets w ⟨u2, a2 * LAMPORTS_PER_SOL, p2, ts2⟩
      ∧ (p2 = some "death" →
          (betNotificationStep (betNotificationStep st w u a p ts) w u2 a2 p2 ts2).totalDeathBets
            = (betNotificationStep st w u a p ts).totalDeathBets
                + a2 * LAMPORTS_PER_SOL)
      ∧ (p2 ≠ some "death" →
          (betNotificationStep (betNotificationStep st w u a p ts) w u2 a2 p2 ts2).totalSurvivalBets
            = (betNotificationStep st w u a p ts).totalSurvivalBets
                + a2 * LAMPORTS_PER_SOL)) := by
  refine ⟨⟨?_, ?_⟩, ?_, ?_⟩
  · intro hp
    simp [betNotificationStep, hp]
  · intro hp
    simp [betNotificationStep, hp]
  · by_cases hp : p = some "death" <;> simp [betNotificationStep, hp]
  · intro u2 a2 p2 ts2
    refine ⟨?_, ?_, ?_⟩
    · by_cases hp : p = some "death" <;> by_cases hp2 : p2 = some "death" <;>
        simp [betNotificationStep, hp, hp2, mapSet_mapSet]
    · intro hp2
      by_cases hp : p = some "death" <;> simp [betNotificationStep, hp, hp2]
    · intro hp2
      by_cases hp : p = some "death" <;> simp [betNotificationStep, hp, hp2]

/-- Witness for C9. -/
theorem C9_bet_notification_witness :
    ((some "death" : Option String) = some "death") ∧
    (betNotificationStep (initialState cfgHIT) "w1" "ann" 2 (some "death") 10).totalDeathBets
      = (initialState cfgHIT).totalDeathBets + 2 * LAMPORTS_PER_SOL :=
  ⟨rfl, ((C9_bet_notification (initialState cfgHIT) "w1" "ann" 2
    (some "death") 10).1.1 rfl).1⟩

/-- C10.  `getTop n` returns at most `n` entries, sorted by hits in
non-increasing order, and its first entry (when present) is an entry of
the map attaining the maximum hit count — the property `buildResults`
relies on for `topDamageDealer`. -/
theorem C10_getTop (m : List (String × Nat)) (n : Nat) :
    (getTop m n).length ≤ n
  ∧ List.Pairwise (fun a b : String × Nat => b.2 ≤ a.2) (getTop m n)
  ∧ (∀ hd, (getTop m n).head? = some hd →
      hd ∈ m ∧ ∀ p ∈ m, p.2 ≤ hd.2) := by
  have htrans : ∀ a b c : String × Nat,
      (fun a b : String × Nat => decide (b.2 ≤ a.2)) a b = true →
      (fun a b : String × Nat => decide (b.2 ≤ a.2)) b c = true →
      (fun a b : String × Nat => decide (b.2 ≤ a.2)) a c = true := by
    intro a b c hab hbc
    simp only [decide_eq_true_eq] at hab hbc ⊢
    omega
  have htotal : ∀ a b : String × Nat,
      ((fun a b : String × Nat => decide (b.2 ≤ a.2)) a b ||
       (fun a b : String × Nat => decide (b.2 ≤ a.2)) b a) = true := by
    intro a b
    simp only [Bool.or_eq_true, decide_eq_true_eq]
    omega
  have hsorted := @List.sorted_mergeSort (String × Nat)
    (fun a b : String × Nat => decide (b.2 ≤ a.2)) htrans htotal m
  have hsorted' : List.Pairwise (fun a b : String × Nat => b.2 ≤ a.2)
      (m.mergeSort (fun a b : String × Nat => decide (b.2 ≤ a.2))) :=
    hsorted.imp (fun h => of_decide_eq_true h)
  have hperm := List.mergeSort_perm m
    (fun a b : String × Nat => decide (b.2 ≤ a.2))
  refine ⟨?_, ?_, ?_⟩
  · show ((m.mergeSort (fun a b : String × Nat => decide (b.2 ≤ a.2))).take n).length ≤ n
    rw [List.length_take]
    exact min_le_left _ _
  · exact List.Pairwise.sublist (List.take_sublist _ _) hsorted'
  · intro hd hhd
    show hd ∈ m ∧ ∀ p ∈ m, p.2 ≤ hd.2
    have hhd' : (m.mergeSort (fun a b : String × Nat => decide (b.2 ≤ a.2))).head?
        = some hd := by
      have := hhd
      rw [show getTop m n
          = (m.mergeSort (fun a b : String × Nat => decide (b.2 ≤ a.2))).take n
          from rfl] at this
      rw [List.head?_take] at this
      by_cases hn : n = 0
      · rw [if_pos hn] at this
        exact absurd this (by simp)
      · rw [if_neg hn] at this
        exact this
    cases hl : m.mergeSort (fun a b : String × Nat => decide (b.2 ≤ a.2)) with
    | nil =>
      rw [hl] at hhd'
      exact absurd hhd' (by simp)
    | cons x t =>
      rw [hl] at hhd' hsorted' hperm
      have hx : hd = x := by
        simp only [List.head?_cons] at hhd'
        exact (Option.some.inj hhd').symm
      subst hx
      constructor
      · exact hperm.mem_iff.mp (List.mem_cons_self _ _)
      · intro p hp
        have hpl : p ∈ hd :: t := hperm.mem_iff.mpr hp
        rcases List.mem_cons.mp hpl with h | h
        · rw [h]
        · exact List.rel_of_pairwise_cons hsorted' h

/-- Witness for C10's head clause at a concrete map. -/
theorem C10_getTop_witness :
    ((getTop [("bob", 1), ("alice", 2)] 3).head? = some ("alice", 2)) ∧
    (("alice", 2) ∈ ([("bob", 1), ("alice", 2)] : List (String × Nat)) ∧
      ∀ p ∈ ([("bob", 1), ("alice", 2)] : List (String × Nat)),
        p.2 ≤ ("alice", 2).2) :=
  ⟨by simp [getTop, List.mergeSort],
   (C10_getTop [("bob", 1), ("alice", 2)] 3).2.2 ("alice", 2)
     (by simp [getTop, List.mergeSort])⟩

/-- C5.  For a settlement run with winner pool `W`, loser pool `L` and
fee percentage `feePct`: with `W = 0` the run issues only `claimFees`;
otherwise every winning bet of amount `amount` is paid exactly
`amount + (L - L * feePct / 100) * amount / W` in integer lamports with
floor rounding (natural division), and every issued payout action stems
from a winning bet with exactly that formula — losing bettors get no
payout action. -/
theorem C5_payout_formula (bossDefeated : Bool) (d s fee : Nat)
    (bets : List BetAccount) :
    let winning := if bossDefeated then "death" else "survival"
    let w := if bossDefeated then d else s
    let l := if bossDefeated then s else d
    (w = 0 → processPayouts bossDefeated d s fee bets = [PayoutAction.claimFees])
  ∧ (w ≠ 0 → ∀ b ∈ bets, b.prediction = winning →
      PayoutAction.claimPayout b.bettor b.amount
          ((l - l * fee / 100) * b.amount / w)
          (b.amount + (l - l * fee / 100) * b.amount / w)
        ∈ processPayouts bossDefeated d s fee bets)
  ∧ (∀ a ∈ processPayouts bossDefeated d s fee bets,
      a = PayoutAction.claimFees ∨
      ∃ b ∈ bets, b.prediction = winning ∧
        a = PayoutAction.claimPayout b.bettor b.amount
          ((l - l * fee / 100) * b.amount / w)
          (b.amount + (l - l * fee / 100) * b.amount / w)) := by
  intro winning w l
  by_cases hW : w = 0
  · refine ⟨fun _ => ?_, fun hne => absurd hW hne, fun a ha => ?_⟩
    · unfold processPayouts
      rw [if_pos hW]
    · unfold processPayouts at ha
      rw [if_pos hW] at ha
      exact Or.inl (List.mem_singleton.mp ha)
  · refine ⟨fun h0 => absurd h0 hW, fun _ b hb hpred => ?_, fun a ha => ?_⟩
    · unfold processPayouts
      rw [if_neg hW, List.mem_append]
      left
      rw [List.mem_filterMap]
      exact ⟨b, hb, by rw [if_pos hpred]⟩
    · unfold processPayouts at ha
      rw [if_neg hW, List.mem_append] at ha
      rcases ha with ha | ha
      · rw [List.mem_filterMap] at ha
        obtain ⟨b, hb, heq⟩ := ha
        by_cases hp : b.prediction = winning
        · rw [if_pos hp] at heq
          right
          exact ⟨b, hb, hp, (Option.some.inj heq).symm⟩
        · rw [if_neg hp] at heq
          exact absurd heq (by simp)
      · exact Or.inl (List.mem_singleton.mp ha)

/-- Witness for C5: one winner and one loser, concrete pools. -/
theorem C5_payout_formula_witness :
    ((100 : Nat) ≠ 0) ∧
    (PayoutAction.claimPayout "w1" 100
        ((200 - 200 * 5 / 100) * 100 / 100)
        (100 + (200 - 200 * 5 / 100) * 100 / 100)
      ∈ processPayouts true 100 200 5
          [BetAccount.mk "w1" "ann" 100 "death",
           BetAccount.mk "w2" "bob" 200 "survival"]) :=
  ⟨by decide,
   (C5_payout_formula true 100 200 5
      [BetAccount.mk "w1" "ann" 100 "death",
       BetAccount.mk "w2" "bob" 200 "survival"]).2.1
     (by decide) (BetAccount.mk "w1" "ann" 100 "death") (by decide) rfl⟩

/-- Every retry delay `startFightingPhase` ever schedules is 2000 ms. -/
theorem startFightingPhase_delays (oracle : Nat → RpcResult) :
    ∀ r, ∀ d ∈ (startFightingPhase oracle r).2, d = 2000 := by
  have key : ∀ n r, 5 - r ≤ n →
      ∀ d ∈ (startFightingPhase oracle r).2, d = 2000 := by
    intro n
    induction n using Nat.strong_induction_on with
    | _ n ih =>
      intro r hn d hd
      unfold startFightingPhase at hd
      split at hd
      · exact absurd hd (by simp)
      · rename_i hbsa
        split at hd
        · rename_i hcond
          rcases List.mem_cons.mp hd with h | h
          · exact h
          · rcases Nat.eq_zero_or_pos n with h0 | h0
            · omega
            · exact ih (n - 1) (by omega) (r + 1) (by omega) d h
        · split at hd
          · exact absurd hd (by simp)
          · exact absurd hd (by simp)
  intro r
  exact key (5 - r) r (le_refl _)

/-- C6.  At every attempt, `startFightingPhase` schedules a retry (after
a 2000 ms delay) exactly when the RPC error is `BettingStillActive` and
fewer than 5 retries have been used; when the error persists through all
5 retries, the run ends with the phase set back to idle and the
user-visible phase-change published, after exactly five 2000 ms
delays. -/
theorem C6_retry_policy (oracle : Nat → RpcResult) :
    (∀ r, ((startFightingPhase oracle r).2 ≠ [] ↔
        (oracle r = RpcResult.bettingStillActive ∧ r < 5)))
  ∧ (∀ r, ∀ d ∈ (startFightingPhase oracle r).2, d = 2000)
  ∧ ((∀ r, r ≤ 5 → oracle r = RpcResult.bettingStillActive) →
      startFightingPhase oracle 0
        = (FightOutcome.idleAfterRetries, [2000, 2000, 2000, 2000, 2000])) := by
  refine ⟨?_, startFightingPhase_delays oracle, ?_⟩
  · intro r
    constructor
    · intro hne
      unfold startFightingPhase at hne
      split at hne
      · exact absurd rfl hne
      · split at hne
        · rename_i hcond
          exact hcond
        · split at hne
          · exact absurd rfl hne
          · exact absurd rfl hne
    · rintro ⟨hbsa, hr⟩
      unfold startFightingPhase
      rw [if_neg (by rw [hbsa]; intro hcontra; exact absurd hcontra (by decide))]
      rw [dif_pos ⟨hbsa, hr⟩]
      simp
  · intro hall
    have e5 : startFightingPhase oracle 5 = (FightOutcome.idleAfterRetries, []) := by
      unfold startFightingPhase
      rw [if_neg (by rw [hall 5 (by norm_num)]; intro hcontra; exact absurd hcontra (by decide))]
      rw [dif_neg (by intro hcontra; omega)]
      rw [if_pos (by norm_num)]
    have step : ∀ r, r < 5 →
        startFightingPhase oracle r =
          ((startFightingPhase oracle (r + 1)).1,
            2000 :: (startFightingPhase oracle (r + 1)).2) := by
      intro r hr
      conv_lhs => unfold startFightingPhase
      rw [if_neg (by rw [hall r (by omega)]; intro hcontra; exact absurd hcontra (by decide))]
      rw [dif_pos ⟨hall r (by omega), hr⟩]
    rw [step 0 (by norm_num), step 1 (by norm_num), step 2 (by norm_num),
        step 3 (by norm_num), step 4 (by norm_num), e5]

/-- Witness for C6: the oracle that always reports `BettingStillActive`. -/
theorem C6_retry_policy_witness :
    startFightingPhase (fun _ => RpcResult.bettingStillActive) 0
      = (FightOutcome.idleAfterRetries, [2000, 2000, 2000, 2000, 2000]) :=
  (C6_retry_policy (fun _ => RpcResult.bettingStillActive)).2.2
    (fun _ _ => rfl)
